import Mathlib

/-!
# sendmail: DKIM-sign a message and hand it to an SMTP server

A shallow embedding of `main.go`. The program is glue around library calls
(`os`, `encoding/pem`, `crypto/x509`, `gomail`, `dkim`, `net/smtp`); every call
that can fail or that returns data is a field of `Env`, so that the theorems
hold for every behaviour of the libraries. A `gomail.Message` is kept as the
list of setter calls made on it, and `WriteTo` is a function of that list. A run
is described by its trace: the list of effects in program order (text written
to standard output and calls that reach the file system, the serializer, the
signer or the network).
-/

namespace Sendmail

/-! ## Data -/

/-- Byte slices (`[]byte`). -/
abbrev Bytes := List UInt8

/-- A Go `error` value, identified with the text its `Error()` method gives. -/
structure GoError where
  Error : String
deriving DecidableEq, Repr

/-- Go `errors.New`. -/
def errors.New (text : String) : GoError := ⟨text⟩

/-- The part of `os.FileInfo` that `main` looks at. -/
structure FileInfo where
  IsDir : Bool
deriving DecidableEq, Repr

/-- Go `pem.Block`. -/
structure PemBlock where
  Type_ : String
  Headers : List (String × String)
  Bytes : Bytes
deriving DecidableEq, Repr

/-- Go `rsa.PrivateKey`: modulus, public exponent, private exponent. -/
structure RSAPrivateKey where
  N : Nat
  E : Nat
  D : Nat
deriving DecidableEq, Repr

/-- The dynamic values `x509.ParsePKCS8PrivateKey` can return as `any`; the
same values are what a `crypto.Signer` interface can hold. A non-RSA key is
kept as its curve or scheme name and its secret bytes. -/
inductive PrivateKey where
  | rsa (k : RSAPrivateKey)
  | ecdsa (curve : String) (d : Nat)
  | ed25519 (seed : Bytes)
  | ecdh (curve : String) (secret : Bytes)
deriving DecidableEq, Repr

/-- The fields of `dkim.SignOptions` that `main` sets. -/
structure SignOptions where
  Domain : String
  Selector : String
  Signer : PrivateKey
deriving DecidableEq, Repr

/-- One setter call on a `gomail.Message`. -/
inductive MsgCall where
  | SetHeader (field : String) (value : List String)
  | SetBody (contentType : String) (body : String)
deriving DecidableEq, Repr

/-- A `gomail.Message` is known by the setter calls made on it since
`gomail.NewMessage()`, oldest first. -/
abbrev Message := List MsgCall

/-- Go `gomail.NewMessage()`. -/
def NewMessage : Message := []

/-- Go `(*Message).SetHeader(field, value...)`. -/
def Message.SetHeader (msg : Message) (field : String) (value : List String) : Message :=
  msg ++ [MsgCall.SetHeader field value]

/-- Go `(*Message).SetBody(contentType, body)`. -/
def Message.SetBody (msg : Message) (contentType body : String) : Message :=
  msg ++ [MsgCall.SetBody contentType body]

/-- Go `smtp.Auth`; `SendMail` always passes `nil`. -/
structure Auth where
  identity : String
deriving DecidableEq, Repr

/-- The effects of a run, in program order. -/
inductive Event where
  | stdout (text : String)
  | stat (name : String)
  | readFile (name : String)
  | writeTo (msg : Message)
  | sign (clear : Bytes) (opts : SignOptions)
  | sendMail (addr : String) (a : Option Auth) (sender : String) (rcpts : List String)
      (msg : Bytes)
deriving DecidableEq, Repr

/-- The library calls of `main.go`. `WriteTo` and `Sign` fill a buffer; the
buffer's content on success is the result. -/
structure Env where
  Stat : String → Except GoError FileInfo
  ReadFile : String → Except GoError Bytes
  pemDecode : Bytes → Option PemBlock × Bytes
  ParsePKCS8PrivateKey : Bytes → Except GoError PrivateKey
  WriteTo : Message → Except GoError Bytes
  Sign : Bytes → SignOptions → Except GoError Bytes
  smtpSendMail : String → Option Auth → String → List String → Bytes → Option GoError

/-- The command-line flags after `flag.Parse()`. -/
structure Flags where
  dkimSelect : String
  dkimDomain : String
  dkimPrivateKeyPath : String
  toAddr : String
  to_ : String
  from_ : String
  subject : String
  message : String
deriving DecidableEq, Repr

/-- The flag values when the command line sets none (lines 19 to 28). -/
def defaultFlags : Flags :=
  { dkimSelect := "default"
    dkimDomain := ""
    dkimPrivateKeyPath := ""
    toAddr := ""
    to_ := ""
    from_ := ""
    subject := "Ping, now please pong"
    message := "こんにちは、世界！" }

/-- The struct `Mailer`. -/
structure Mailer where
  ToAddr : String
  From : String
  To : String
  SignOpts : SignOptions
deriving DecidableEq, Repr

/-! ## Operations -/

/-- Go `len` of a string: its length in bytes. -/
def len (s : String) : Nat := s.utf8ByteSize

/-- The function `parsePrivateKey`: the result and the trace. -/
def parsePrivateKey (env : Env) (file : String) : Except GoError PrivateKey × List Event :=
  match env.ReadFile file with
  | .error err => (.error err, [Event.readFile file])
  | .ok pkbs =>
    match (env.pemDecode pkbs).1 with
    | none =>
      (.error (errors.New "failed to decode PEM block containing private key"),
        [Event.readFile file])
    | some block =>
      match env.ParsePKCS8PrivateKey block.Bytes with
      | .error err => (.error err, [Event.readFile file])
      | .ok key =>
        match key with
        | .rsa k => (.ok (.rsa k), [Event.readFile file])
        | _ => (.error (errors.New "not an RSA private key"), [Event.readFile file])

/-- The message `Mailer.SendMail` builds (lines 110 to 114). -/
def Mailer.buildMessage (m : Mailer) (subject message : String) : Message :=
  (((NewMessage.SetHeader "From" [m.From]).SetHeader "To" [m.To]).SetHeader
    "Subject" [subject]).SetBody "text/plain" message

/-- The method `Mailer.SendMail`: the returned error (`none` for `nil`) and the
trace. -/
def Mailer.SendMail (m : Mailer) (env : Env) (subject message : String) :
    Option GoError × List Event :=
  let msg := m.buildMessage subject message
  match env.WriteTo msg with
  | .error err => (some err, [Event.writeTo msg])
  | .ok clearMessage =>
    match env.Sign clearMessage m.SignOpts with
    | .error err => (some err, [Event.writeTo msg, Event.sign clearMessage m.SignOpts])
    | .ok signedMessage =>
      let tr := [Event.writeTo msg, Event.sign clearMessage m.SignOpts,
        Event.sendMail m.ToAddr none m.From [m.To] signedMessage]
      match env.smtpSendMail m.ToAddr none m.From [m.To] signedMessage with
      | some err => (some err, tr)
      | none => (none, tr)

/-- The `Mailer` literal of `main` (lines 69 to 78). -/
def mailerOf (fl : Flags) (pk : PrivateKey) : Mailer :=
  { ToAddr := fl.toAddr
    To := fl.to_
    From := fl.from_
    SignOpts := { Domain := fl.dkimDomain, Selector := fl.dkimSelect, Signer := pk } }

/-- The part of `main` after the key is loaded (lines 69 to 82). The `if` that
reports the error has no `return`, so the last line runs in both cases. -/
def mainSend (env : Env) (fl : Flags) (pk : PrivateKey) : List Event :=
  let m := mailerOf fl pk
  let r := m.SendMail env fl.subject fl.message
  let report :=
    match r.1 with
    | some err => [Event.stdout ("sending mail: " ++ err.Error)]
    | none => []
  r.2 ++ report ++ [Event.stdout "mail sent successfully\n"]

/-- The function `main`: the trace of the run. -/
def main (env : Env) (fl : Flags) : List Event :=
  if len fl.dkimSelect ≤ 0 then [Event.stdout "-signselect not set\n"]
  else if len fl.dkimDomain ≤ 0 then [Event.stdout "-signdomain not set\n"]
  else if len fl.toAddr ≤ 0 then [Event.stdout "-host not set\n"]
  else if len fl.to_ ≤ 0 then [Event.stdout "-to not set\n"]
  else if len fl.from_ ≤ 0 then [Event.stdout "-from not set\n"]
  else
    match env.Stat fl.dkimPrivateKeyPath with
    | .error err =>
      [Event.stat fl.dkimPrivateKeyPath, Event.stdout ("-signkey: " ++ err.Error)]
    | .ok fi =>
      if fi.IsDir then
        [Event.stat fl.dkimPrivateKeyPath,
          Event.stdout "-signkey: is a directory, expected a file\n"]
      else
        let r := parsePrivateKey env fl.dkimPrivateKeyPath
        match r.1 with
        | .error err =>
          Event.stat fl.dkimPrivateKeyPath :: r.2 ++ [Event.stdout (err.Error ++ "\n")]
        | .ok pk => Event.stat fl.dkimPrivateKeyPath :: r.2 ++ mainSend env fl pk

/-! ## Reading a trace -/

/-- Everything the run wrote to standard output. -/
def stdoutOf : List Event → String
  | [] => ""
  | Event.stdout s :: t => s ++ stdoutOf t
  | _ :: t => stdoutOf t

/-- Whether the event is a call of `smtp.SendMail`. -/
def Event.isSend : Event → Bool
  | Event.sendMail _ _ _ _ _ => true
  | _ => false

/-- Whether the event is a call of `dkim.Sign`. -/
def Event.isSign : Event → Bool
  | Event.sign _ _ => true
  | _ => false

/-- Whether the event is a call of `os.ReadFile`. -/
def Event.isReadFile : Event → Bool
  | Event.readFile _ => true
  | _ => false

/-- Whether the event is a call of `os.Stat`. -/
def Event.isStat : Event → Bool
  | Event.stat _ => true
  | _ => false

/-- Whether the run called `os.Stat` or `os.ReadFile`. -/
def touchesKeyFile (t : List Event) : Bool := t.any (fun ev => ev.isStat || ev.isReadFile)

/-- Whether the run called `dkim.Sign` or `smtp.SendMail`. -/
def signsOrSends (t : List Event) : Bool := t.any (fun ev => ev.isSign || ev.isSend)

/-- Whether the text begins with `pre`. -/
def startsWith (s pre : String) : Bool := pre.data.isPrefixOf s.data

/-- Whether the text holds a CR or an LF. -/
def hasLineBreak (s : String) : Bool := s.data.any (fun c => c == '\r' || c == '\n')

/-- The mandatory flags with their values, in the order `main` checks them. -/
def mandatoryFlags (fl : Flags) : List (String × String) :=
  [("signselect", fl.dkimSelect), ("signdomain", fl.dkimDomain), ("host", fl.toAddr),
    ("to", fl.to_), ("from", fl.from_)]

/-- The name of the first mandatory flag whose value is the empty string. -/
def firstEmptyFlag (fl : Flags) : Option String :=
  ((mandatoryFlags fl).find? (fun p => p.2 = "")).map (fun p => p.1)

/-- All five mandatory flags are set. -/
def flagsSet (fl : Flags) : Prop :=
  fl.dkimSelect ≠ "" ∧ fl.dkimDomain ≠ "" ∧ fl.toAddr ≠ "" ∧ fl.to_ ≠ "" ∧ fl.from_ ≠ ""

instance (fl : Flags) : Decidable (flagsSet fl) := by
  unfold flagsSet
  infer_instance

/-! ## Concrete environments -/

/-- A world where every library call succeeds: the key file holds an RSA key,
the message serializes, signs and is accepted by the server. -/
def okEnv : Env :=
  { Stat := fun _ => .ok ⟨false⟩
    ReadFile := fun _ => .ok [45, 45, 45]
    pemDecode := fun _ => (some ⟨"PRIVATE KEY", [], [48, 130]⟩, [])
    ParsePKCS8PrivateKey := fun _ => .ok (.rsa ⟨3233, 17, 2753⟩)
    WriteTo := fun _ => .ok [70, 114]
    Sign := fun clear _ => .ok (68 :: clear)
    smtpSendMail := fun _ _ _ _ _ => none }

/-- A full set of flags. -/
def someFlags : Flags :=
  { dkimSelect := "default"
    dkimDomain := "example.com"
    dkimPrivateKeyPath := "key.pem"
    toAddr := "mx.example.org:25"
    to_ := "bob@example.org"
    from_ := "alice@example.com"
    subject := "hi"
    message := "hello" }

/-- The mailer `main` builds from `someFlags` and the key of `okEnv`. -/
def someMailer : Mailer :=
  { ToAddr := "mx.example.org:25"
    From := "alice@example.com"
    To := "bob@example.org"
    SignOpts :=
      { Domain := "example.com", Selector := "default", Signer := .rsa ⟨3233, 17, 2753⟩ } }

/-- As `okEnv`, but the server cannot be reached. -/
def refusedEnv : Env :=
  { okEnv with smtpSendMail := fun _ _ _ _ _ => some ⟨"dial tcp: connection refused"⟩ }

/-- As `okEnv`, but the key file exists and cannot be opened. -/
def unreadableEnv : Env :=
  { okEnv with ReadFile := fun _ => .error ⟨"open key.pem: permission denied"⟩ }

/-- As `okEnv`, but the key file holds an elliptic-curve key. -/
def ecEnv : Env :=
  { okEnv with ParsePKCS8PrivateKey := fun _ => .ok (.ecdsa "P-256" 7) }

/-- As `okEnv`, but the key file holds no PEM block. -/
def noPemEnv : Env :=
  { okEnv with pemDecode := fun bs => (none, bs) }

/-- As `okEnv`, but the signer fails. -/
def signFailEnv : Env :=
  { okEnv with Sign := fun _ _ => .error ⟨"dkim: cannot sign"⟩ }

/-- As `okEnv`, but the message cannot be serialized. -/
def writeFailEnv : Env :=
  { okEnv with WriteTo := fun _ => .error ⟨"gomail: cannot write"⟩ }

/-! ## The canonicalizer of the spec (section 4.3)

`main.go` does not canonicalize anything itself: the work is done inside
`dkim.Sign`, which `Mailer.SendMail` calls and whose code is not part of this
repository. The definitions below follow the words of section 4.3 of the spec;
characters are Unicode code points and a text is its list of characters. -/

/-- Modelled from the spec: the two canonicalization modes of section 4.3; the
canonicalizer itself is library code that is missing here. -/
inductive CanonMode where
  | simple
  | relaxed
deriving DecidableEq, Repr

/-- Modelled from the spec: the "whitespace" of section 4.3, missing here with
the canonicalizer: space and horizontal tab, the WSP of RFC 6376, which the spec
names as the algorithm to match bit for bit. -/
def isWSP (c : Char) : Bool := c == ' ' || c == '\t'

/-- Modelled from the spec: "runs of whitespace collapsed to a single space"
(the canonicalizer is missing here). `prev` says whether the character just
before was whitespace, in which case the run already has its space. -/
def collapseAux : Bool → List Char → List Char
  | _, [] => []
  | prev, c :: cs =>
    if isWSP c then
      if prev then collapseAux true cs else ' ' :: collapseAux true cs
    else c :: collapseAux false cs

/-- Modelled from the spec: "runs of whitespace collapsed to a single space",
from the start of a text (the canonicalizer is missing here). -/
def collapseWSP (l : List Char) : List Char := collapseAux false l

/-- Modelled from the spec: "trailing whitespace removed" (the canonicalizer is
missing here). -/
def trimRight (l : List Char) : List Char := l.rdropWhile isWSP

/-- Modelled from the spec: "leading whitespace trimmed" (the canonicalizer is
missing here). -/
def trimLeft (l : List Char) : List Char := l.dropWhile isWSP

/-- Modelled from the spec: "header name lowercased" (the canonicalizer is
missing here). -/
def lowercase (l : List Char) : List Char := l.map Char.toLower

/-- Modelled from the spec: the body as a "sequence of lines, each terminated by
CRLF" (section 3; the canonicalizer is missing here). The lines come without
their terminator; text after the last CRLF is a last line. -/
def splitLines : List Char → List (List Char)
  | [] => []
  | [c] => [[c]]
  | c :: d :: rest =>
    if c = '\r' ∧ d = '\n' then [] :: splitLines rest
    else
      match splitLines (d :: rest) with
      | [] => [[c]]
      | l :: ls => (c :: l) :: ls

/-- Modelled from the spec: the text of a sequence of lines, each terminated by
CRLF (the canonicalizer is missing here). -/
def joinLines : List (List Char) → List Char
  | [] => []
  | l :: ls => l ++ '\r' :: '\n' :: joinLines ls

/-- Modelled from the spec: "trailing blank lines removed" (the canonicalizer is
missing here). -/
def dropTrailingBlank (ls : List (List Char)) : List (List Char) :=
  ls.rdropWhile List.isEmpty

/-- Modelled from the spec: one body line in relaxed mode, "trailing whitespace
on each line removed, runs of whitespace collapsed to single space" (the
canonicalizer is missing here). -/
def canonLine (l : List Char) : List Char := trimRight (collapseWSP l)

/-- A header field: its name and its value. -/
abbrev Header := String × String

/-- Modelled from the spec: `canonHeader(name, value, mode)` of section 4.3,
missing here because it is library code. Relaxed: "header name lowercased; runs
of whitespace in the value collapsed to a single space; leading/trailing
whitespace trimmed". Simple: the field is left as it is (the line terminator is
not part of the value here). The result is kept as a (name, value) pair, which
is what section 8 feeds back into `canonHeader`; its text is `renderHeader`. -/
def canonHeader (h : Header) : CanonMode → Header
  | .simple => h
  | .relaxed => (⟨lowercase h.1.data⟩, ⟨trimLeft (trimRight (collapseWSP h.2.data))⟩)

/-- Modelled from the spec: the text of a canonical header field, name, colon,
value, CRLF, as in RFC 6376 (the canonicalizer is missing here). -/
def renderHeader (h : Header) : String := h.1 ++ ":" ++ h.2 ++ "\r\n"

/-- Modelled from the spec: `canonBody(body, mode)` of section 4.3, missing here
because it is library code. Relaxed: "trailing whitespace on each line removed,
runs of whitespace collapsed to single space, trailing blank lines removed,
exactly one terminating CRLF kept (empty body stays empty, not CRLF)". Simple:
"trailing empty lines at end-of-message are removed down to exactly one
terminating CRLF (or to empty if body is empty)". -/
def canonBody (body : String) : CanonMode → String
  | .simple =>
    if body.data = [] then ""
    else
      match dropTrailingBlank (splitLines body.data) with
      | [] => "\r\n"
      | ls => ⟨joinLines ls⟩
  | .relaxed => ⟨joinLines (dropTrailingBlank ((splitLines body.data).map canonLine))⟩

/-- No CR is directly followed by an LF. -/
def NoCRLF (l : List Char) : Prop := l.Chain' (fun a b => ¬(a = '\r' ∧ b = '\n'))

/-! ## Basic facts -/

theorem len_le_zero_iff (s : String) : len s ≤ 0 ↔ s = "" := by
  rcases s with ⟨cs⟩
  cases cs with
  | nil => simp [len, String.utf8ByteSize, String.utf8ByteSize.go]
  | cons c cs =>
    have hc := Char.utf8Size_pos c
    have hne : (⟨c :: cs⟩ : String) ≠ "" := by
      intro h
      have := congrArg String.data h
      simp at this
    simp only [len, String.utf8ByteSize, String.utf8ByteSize.go, hne, iff_false]
    omega

theorem main_of_flagsSet (env : Env) (fl : Flags) (h : flagsSet fl) :
    main env fl =
      match env.Stat fl.dkimPrivateKeyPath with
      | .error err =>
        [Event.stat fl.dkimPrivateKeyPath, Event.stdout ("-signkey: " ++ err.Error)]
      | .ok fi =>
        if fi.IsDir then
          [Event.stat fl.dkimPrivateKeyPath,
            Event.stdout "-signkey: is a directory, expected a file\n"]
        else
          match (parsePrivateKey env fl.dkimPrivateKeyPath).1 with
          | .error err =>
            Event.stat fl.dkimPrivateKeyPath :: (parsePrivateKey env fl.dkimPrivateKeyPath).2
              ++ [Event.stdout (err.Error ++ "\n")]
          | .ok pk =>
            Event.stat fl.dkimPrivateKeyPath :: (parsePrivateKey env fl.dkimPrivateKeyPath).2
              ++ mainSend env fl pk := by
  obtain ⟨h1, h2, h3, h4, h5⟩ := h
  unfold main
  simp only [len_le_zero_iff, h1, h2, h3, h4, h5, if_false]

/-- With a mandatory flag empty the trace is one write to standard output. -/
theorem main_of_empty_flag (env : Env) (fl : Flags)
    (h : fl.dkimSelect = "" ∨ fl.dkimDomain = "" ∨ fl.toAddr = "" ∨ fl.to_ = "" ∨
      fl.from_ = "") :
    ∃ text, main env fl = [Event.stdout text] := by
  unfold main
  simp only [len_le_zero_iff]
  by_cases h1 : fl.dkimSelect = ""
  · exact ⟨_, by simp only [h1, if_true, if_false]; rfl⟩
  by_cases h2 : fl.dkimDomain = ""
  · exact ⟨_, by simp only [h1, h2, if_true, if_false]; rfl⟩
  by_cases h3 : fl.toAddr = ""
  · exact ⟨_, by simp only [h1, h2, h3, if_true, if_false]; rfl⟩
  by_cases h4 : fl.to_ = ""
  · exact ⟨_, by simp only [h1, h2, h3, h4, if_true, if_false]; rfl⟩
  by_cases h5 : fl.from_ = ""
  · exact ⟨_, by simp only [h1, h2, h3, h4, h5, if_true, if_false]; rfl⟩
  · simp [h1, h2, h3, h4, h5] at h

theorem parsePrivateKey_trace (env : Env) (file : String) :
    (parsePrivateKey env file).2 = [Event.readFile file] := by
  unfold parsePrivateKey
  cases env.ReadFile file with
  | error e => rfl
  | ok pkbs =>
    cases h : (env.pemDecode pkbs).1 with
    | none => simp [h]
    | some block =>
      cases h2 : env.ParsePKCS8PrivateKey block.Bytes with
      | error e => simp [h, h2]
      | ok key => cases key <;> simp [h, h2]

theorem parsePrivateKey_of_read_error (env : Env) (file : String) (e : GoError)
    (h : env.ReadFile file = .error e) : (parsePrivateKey env file).1 = .error e := by
  unfold parsePrivateKey
  simp only [h]

theorem parsePrivateKey_of_no_block (env : Env) (file : String) (pkbs : Bytes)
    (h1 : env.ReadFile file = .ok pkbs) (h2 : (env.pemDecode pkbs).1 = none) :
    (parsePrivateKey env file).1 =
      .error (errors.New "failed to decode PEM block containing private key") := by
  unfold parsePrivateKey
  simp only [h1, h2]

theorem parsePrivateKey_of_parse_error (env : Env) (file : String) (pkbs : Bytes)
    (block : PemBlock) (e : GoError)
    (h1 : env.ReadFile file = .ok pkbs) (h2 : (env.pemDecode pkbs).1 = some block)
    (h3 : env.ParsePKCS8PrivateKey block.Bytes = .error e) :
    (parsePrivateKey env file).1 = .error e := by
  unfold parsePrivateKey
  simp only [h1, h2, h3]

theorem parsePrivateKey_of_parsed (env : Env) (file : String) (pkbs : Bytes)
    (block : PemBlock) (key : PrivateKey)
    (h1 : env.ReadFile file = .ok pkbs) (h2 : (env.pemDecode pkbs).1 = some block)
    (h3 : env.ParsePKCS8PrivateKey block.Bytes = .ok key) :
    (parsePrivateKey env file).1 =
      match key with
      | .rsa k => .ok (.rsa k)
      | _ => .error (errors.New "not an RSA private key") := by
  unfold parsePrivateKey
  simp only [h1, h2, h3]
  cases key <;> rfl

theorem stdoutOf_append (a b : List Event) : stdoutOf (a ++ b) = stdoutOf a ++ stdoutOf b := by
  induction a with
  | nil => simp [stdoutOf]
  | cons x t ih => cases x <;> simp [stdoutOf, ih, String.append_assoc]

theorem SendMail_stdout (m : Mailer) (env : Env) (subject message : String) :
    stdoutOf (m.SendMail env subject message).2 = "" := by
  unfold Mailer.SendMail
  dsimp only
  split
  · simp [stdoutOf]
  · split
    · simp [stdoutOf]
    · split <;> simp [stdoutOf]

theorem SendMail_of_write_error (m : Mailer) (env : Env) (subject message : String)
    (e : GoError) (h : env.WriteTo (m.buildMessage subject message) = .error e) :
    m.SendMail env subject message = (some e, [Event.writeTo (m.buildMessage subject message)]) := by
  unfold Mailer.SendMail
  simp only [h]

theorem SendMail_of_sign_error (m : Mailer) (env : Env) (subject message : String)
    (clear : Bytes) (e : GoError)
    (h1 : env.WriteTo (m.buildMessage subject message) = .ok clear)
    (h2 : env.Sign clear m.SignOpts = .error e) :
    m.SendMail env subject message =
      (some e, [Event.writeTo (m.buildMessage subject message), Event.sign clear m.SignOpts]) := by
  unfold Mailer.SendMail
  simp only [h1, h2]

theorem SendMail_of_signed (m : Mailer) (env : Env) (subject message : String)
    (clear signed : Bytes)
    (h1 : env.WriteTo (m.buildMessage subject message) = .ok clear)
    (h2 : env.Sign clear m.SignOpts = .ok signed) :
    m.SendMail env subject message =
      (env.smtpSendMail m.ToAddr none m.From [m.To] signed,
        [Event.writeTo (m.buildMessage subject message), Event.sign clear m.SignOpts,
          Event.sendMail m.ToAddr none m.From [m.To] signed]) := by
  unfold Mailer.SendMail
  simp only [h1, h2]
  cases env.smtpSendMail m.ToAddr none m.From [m.To] signed <;> rfl

/-- The trace of `main` on the path where the key loads. -/
theorem main_of_key (env : Env) (fl : Flags) (fi : FileInfo) (pk : PrivateKey)
    (hf : flagsSet fl) (hs : env.Stat fl.dkimPrivateKeyPath = .ok fi) (hd : fi.IsDir = false)
    (hk : (parsePrivateKey env fl.dkimPrivateKeyPath).1 = .ok pk) :
    main env fl = Event.stat fl.dkimPrivateKeyPath :: Event.readFile fl.dkimPrivateKeyPath ::
      mainSend env fl pk := by
  rw [main_of_flagsSet env fl hf]
  simp [hs, hd, hk, parsePrivateKey_trace]

/-! ## C1: reporting of a failed send -/

/-- C1 (the code departs from it). On every run of `main` in which the flag and
key checks pass and `SendMail` returns the error `e`, standard output holds the
report of the error and, right after it, the line `mail sent successfully`: the
`if` at line 79 does not return. -/
theorem main_prints_success_after_send_error (env : Env) (fl : Flags) (fi : FileInfo)
    (pk : PrivateKey) (e : GoError)
    (hf : flagsSet fl) (hs : env.Stat fl.dkimPrivateKeyPath = .ok fi) (hd : fi.IsDir = false)
    (hk : (parsePrivateKey env fl.dkimPrivateKeyPath).1 = .ok pk)
    (he : ((mailerOf fl pk).SendMail env fl.subject fl.message).1 = some e) :
    stdoutOf (main env fl) = "sending mail: " ++ e.Error ++ "mail sent successfully\n" := by
  rw [main_of_key env fl fi pk hf hs hd hk]
  simp only [stdoutOf, mainSend, he, stdoutOf_append, SendMail_stdout]
  simp [String.append_assoc]

/-- The run with a refused connection prints the error and then the success line. -/
theorem main_prints_success_after_send_error_witness :
    (someMailer.SendMail refusedEnv "hi" "hello").1 = some ⟨"dial tcp: connection refused"⟩ ∧
    stdoutOf (main refusedEnv someFlags) =
      "sending mail: " ++ "dial tcp: connection refused" ++ "mail sent successfully\n" :=
  ⟨by decide,
    main_prints_success_after_send_error refusedEnv someFlags ⟨false⟩ (.rsa ⟨3233, 17, 2753⟩)
      ⟨"dial tcp: connection refused"⟩ (by decide) rfl rfl rfl rfl⟩

/-! ## C2: a missing mandatory flag -/

/-- C2. When one of `-signselect`, `-signdomain`, `-host`, `-to`, `-from` is
empty, the whole trace of `main` is one write to standard output, the line
`-<flag> not set` for the first empty flag in that order; no call reaches the
key file, the signer or the SMTP client. -/
theorem main_missing_flag (env : Env) (fl : Flags)
    (h : fl.dkimSelect = "" ∨ fl.dkimDomain = "" ∨ fl.toAddr = "" ∨ fl.to_ = "" ∨
      fl.from_ = "") :
    ∃ name, firstEmptyFlag fl = some name ∧
      main env fl = [Event.stdout ("-" ++ name ++ " not set\n")] ∧
      touchesKeyFile (main env fl) = false ∧ signsOrSends (main env fl) = false := by
  have key : ∀ name, main env fl = [Event.stdout ("-" ++ name ++ " not set\n")] →
      main env fl = [Event.stdout ("-" ++ name ++ " not set\n")] ∧
      touchesKeyFile (main env fl) = false ∧ signsOrSends (main env fl) = false := by
    intro name hm
    refine ⟨hm, ?_, ?_⟩ <;> rw [hm] <;> rfl
  have hcore : ∃ name, firstEmptyFlag fl = some name ∧
      main env fl = [Event.stdout ("-" ++ name ++ " not set\n")] := by
    unfold main firstEmptyFlag mandatoryFlags
    simp only [len_le_zero_iff]
    by_cases h1 : fl.dkimSelect = ""
    · exact ⟨"signselect", by simp [h1], by simp [h1]⟩
    by_cases h2 : fl.dkimDomain = ""
    · exact ⟨"signdomain", by simp [h1, h2], by simp [h1, h2]⟩
    by_cases h3 : fl.toAddr = ""
    · exact ⟨"host", by simp [h1, h2, h3], by simp [h1, h2, h3]⟩
    by_cases h4 : fl.to_ = ""
    · exact ⟨"to", by simp [h1, h2, h3, h4], by simp [h1, h2, h3, h4]⟩
    by_cases h5 : fl.from_ = ""
    · exact ⟨"from", by simp [h1, h2, h3, h4, h5], by simp [h1, h2, h3, h4, h5]⟩
    · simp [h1, h2, h3, h4, h5] at h
  obtain ⟨name, hn, hm⟩ := hcore
  exact ⟨name, hn, key name hm⟩

/-- With no flag on the command line the first empty flag is `-signdomain`. -/
theorem main_missing_flag_witness :
    ∃ name, firstEmptyFlag defaultFlags = some name ∧
      main okEnv defaultFlags = [Event.stdout ("-" ++ name ++ " not set\n")] ∧
      touchesKeyFile (main okEnv defaultFlags) = false ∧
      signsOrSends (main okEnv defaultFlags) = false :=
  main_missing_flag okEnv defaultFlags (Or.inr (Or.inl rfl))

/-! ## C3: no partial success in `SendMail` -/

/-- C3. In `Mailer.SendMail` the SMTP delivery step is called if and only if
serializing and signing both succeeded, it is called at most once, `SendMail`
returns nil if and only if serializing, signing and delivery all succeeded, and
when signing fails no delivery call is made. -/
theorem SendMail_no_partial_success (m : Mailer) (env : Env) (subject message : String) :
    ((∃ ev ∈ (m.SendMail env subject message).2, ev.isSend = true) ↔
      ∃ clear signed, env.WriteTo (m.buildMessage subject message) = .ok clear ∧
        env.Sign clear m.SignOpts = .ok signed) ∧
    (m.SendMail env subject message).2.countP Event.isSend ≤ 1 ∧
    ((m.SendMail env subject message).1 = none ↔
      ∃ clear signed, env.WriteTo (m.buildMessage subject message) = .ok clear ∧
        env.Sign clear m.SignOpts = .ok signed ∧
        env.smtpSendMail m.ToAddr none m.From [m.To] signed = none) ∧
    (∀ clear e, env.WriteTo (m.buildMessage subject message) = .ok clear →
      env.Sign clear m.SignOpts = .error e →
      (m.SendMail env subject message).2.countP Event.isSend = 0) := by
  cases h1 : env.WriteTo (m.buildMessage subject message) with
  | error e =>
    rw [SendMail_of_write_error m env subject message e h1]
    simp [Event.isSend]
  | ok clear =>
    cases h2 : env.Sign clear m.SignOpts with
    | error e =>
      rw [SendMail_of_sign_error m env subject message clear e h1 h2]
      simp [Event.isSend, h2]
    | ok signed =>
      rw [SendMail_of_signed m env subject message clear signed h1 h2]
      refine ⟨?_, ?_, ?_, ?_⟩
      · simp [Event.isSend, h2]
      · simp [Event.isSend]
      · simp [h2]
      · intro c e hc he
        cases hc
        rw [h2] at he
        cases he

/-! ## C6: errors are passed on as they are -/

/-- C6. An error from serializing, from signing or from the delivery call is
what `Mailer.SendMail` returns, the same value; and every error `SendMail`
returns is the one the failing step produced. -/
theorem SendMail_returns_the_error (m : Mailer) (env : Env) (subject message : String)
    (e : GoError) :
    (env.WriteTo (m.buildMessage subject message) = .error e →
      (m.SendMail env subject message).1 = some e) ∧
    (∀ clear, env.WriteTo (m.buildMessage subject message) = .ok clear →
      env.Sign clear m.SignOpts = .error e → (m.SendMail env subject message).1 = some e) ∧
    (∀ clear signed, env.WriteTo (m.buildMessage subject message) = .ok clear →
      env.Sign clear m.SignOpts = .ok signed →
      env.smtpSendMail m.ToAddr none m.From [m.To] signed = some e →
      (m.SendMail env subject message).1 = some e) ∧
    ((m.SendMail env subject message).1 = some e →
      env.WriteTo (m.buildMessage subject message) = .error e ∨
      (∃ clear, env.WriteTo (m.buildMessage subject message) = .ok clear ∧
        env.Sign clear m.SignOpts = .error e) ∨
      (∃ clear signed, env.WriteTo (m.buildMessage subject message) = .ok clear ∧
        env.Sign clear m.SignOpts = .ok signed ∧
        env.smtpSendMail m.ToAddr none m.From [m.To] signed = some e)) := by
  refine ⟨?_, ?_, ?_, ?_⟩
  · intro h
    rw [SendMail_of_write_error m env subject message e h]
  · intro clear h1 h2
    rw [SendMail_of_sign_error m env subject message clear e h1 h2]
  · intro clear signed h1 h2 h3
    rw [SendMail_of_signed m env subject message clear signed h1 h2, h3]
  · intro h
    cases h1 : env.WriteTo (m.buildMessage subject message) with
    | error e1 =>
      rw [SendMail_of_write_error m env subject message e1 h1] at h
      simp at h
      simp [h]
    | ok clear =>
      cases h2 : env.Sign clear m.SignOpts with
      | error e2 =>
        rw [SendMail_of_sign_error m env subject message clear e2 h1 h2] at h
        simp at h
        simp [h, h2]
      | ok signed =>
        rw [SendMail_of_signed m env subject message clear signed h1 h2] at h
        simp at h
        simp [h, h2]

/-- The three failing environments: each error comes back as it was produced. -/
theorem SendMail_returns_the_error_witness :
    (someMailer.SendMail writeFailEnv "hi" "hello").1 = some ⟨"gomail: cannot write"⟩ ∧
    (someMailer.SendMail signFailEnv "hi" "hello").1 = some ⟨"dkim: cannot sign"⟩ ∧
    (someMailer.SendMail refusedEnv "hi" "hello").1 = some ⟨"dial tcp: connection refused"⟩ :=
  ⟨(SendMail_returns_the_error someMailer writeFailEnv "hi" "hello" _).1 rfl,
    (SendMail_returns_the_error someMailer signFailEnv "hi" "hello" _).2.1 [70, 114] rfl rfl,
    (SendMail_returns_the_error someMailer refusedEnv "hi" "hello" _).2.2.1 [70, 114]
      [68, 70, 114] rfl rfl rfl⟩

/-! ## C4: loading the key -/

/-- C4. The function `parsePrivateKey` returns a key exactly when the file is
read, its bytes hold a PEM block, the block parses as PKCS#8 and the parsed key
is an RSA key, and the key returned is that RSA key. Bytes without a PEM block
give the error `failed to decode PEM block containing private key`; a parsed key
that is not RSA gives the different error `not an RSA private key`; a read or a
parse error is returned as it is; no key of another type is ever returned. -/
theorem parsePrivateKey_spec (env : Env) (file : String) :
    (∀ key, (parsePrivateKey env file).1 = .ok key ↔
      ∃ pkbs block k, env.ReadFile file = .ok pkbs ∧ (env.pemDecode pkbs).1 = some block ∧
        env.ParsePKCS8PrivateKey block.Bytes = .ok (.rsa k) ∧ key = .rsa k) ∧
    (∀ e, env.ReadFile file = .error e → (parsePrivateKey env file).1 = .error e) ∧
    (∀ pkbs, env.ReadFile file = .ok pkbs → (env.pemDecode pkbs).1 = none →
      (parsePrivateKey env file).1 =
        .error (errors.New "failed to decode PEM block containing private key")) ∧
    (∀ pkbs block e, env.ReadFile file = .ok pkbs → (env.pemDecode pkbs).1 = some block →
      env.ParsePKCS8PrivateKey block.Bytes = .error e →
      (parsePrivateKey env file).1 = .error e) ∧
    (∀ pkbs block key, env.ReadFile file = .ok pkbs → (env.pemDecode pkbs).1 = some block →
      env.ParsePKCS8PrivateKey block.Bytes = .ok key → (∀ k, key ≠ .rsa k) →
      (parsePrivateKey env file).1 = .error (errors.New "not an RSA private key")) ∧
    (∀ key, (parsePrivateKey env file).1 = .ok key → ∃ k, key = .rsa k) ∧
    errors.New "failed to decode PEM block containing private key" ≠
      errors.New "not an RSA private key" := by
  have hne : errors.New "failed to decode PEM block containing private key" ≠
      errors.New "not an RSA private key" := by decide
  refine ⟨?_, parsePrivateKey_of_read_error env file, parsePrivateKey_of_no_block env file,
    parsePrivateKey_of_parse_error env file, ?_, ?_, hne⟩
  · intro key
    constructor
    · intro h
      cases h1 : env.ReadFile file with
      | error e1 =>
        rw [parsePrivateKey_of_read_error env file e1 h1] at h
        cases h
      | ok pkbs =>
        cases h2 : (env.pemDecode pkbs).1 with
        | none =>
          rw [parsePrivateKey_of_no_block env file pkbs h1 h2] at h
          cases h
        | some block =>
          cases h3 : env.ParsePKCS8PrivateKey block.Bytes with
          | error e3 =>
            rw [parsePrivateKey_of_parse_error env file pkbs block e3 h1 h2 h3] at h
            cases h
          | ok parsed =>
            rw [parsePrivateKey_of_parsed env file pkbs block parsed h1 h2 h3] at h
            cases parsed with
            | rsa k =>
              simp only [Except.ok.injEq] at h
              exact ⟨pkbs, block, k, rfl, h2, h3, h.symm⟩
            | ecdsa c d => cases h
            | ed25519 sd => cases h
            | ecdh c sc => cases h
    · rintro ⟨pkbs, block, k, h1, h2, h3, rfl⟩
      rw [parsePrivateKey_of_parsed env file pkbs block _ h1 h2 h3]
  · intro pkbs block key h1 h2 h3 hk
    rw [parsePrivateKey_of_parsed env file pkbs block key h1 h2 h3]
    cases key with
    | rsa k => exact absurd rfl (hk k)
    | ecdsa c d => rfl
    | ed25519 sd => rfl
    | ecdh c sc => rfl
  · intro key h
    cases h1 : env.ReadFile file with
    | error e1 =>
      rw [parsePrivateKey_of_read_error env file e1 h1] at h
      cases h
    | ok pkbs =>
      cases h2 : (env.pemDecode pkbs).1 with
      | none =>
        rw [parsePrivateKey_of_no_block env file pkbs h1 h2] at h
        cases h
      | some block =>
        cases h3 : env.ParsePKCS8PrivateKey block.Bytes with
        | error e3 =>
          rw [parsePrivateKey_of_parse_error env file pkbs block e3 h1 h2 h3] at h
          cases h
        | ok parsed =>
          rw [parsePrivateKey_of_parsed env file pkbs block parsed h1 h2 h3] at h
          cases parsed with
          | rsa k =>
            simp only [Except.ok.injEq] at h
            exact ⟨k, h.symm⟩
          | ecdsa c d => cases h
          | ed25519 sd => cases h
          | ecdh c sc => cases h

/-- The key file of `okEnv` gives its RSA key, the file with an elliptic-curve
key and the file without a PEM block give the two errors. -/
theorem parsePrivateKey_spec_witness :
    (parsePrivateKey okEnv "key.pem").1 = .ok (.rsa ⟨3233, 17, 2753⟩) ∧
    (parsePrivateKey noPemEnv "key.pem").1 =
      .error (errors.New "failed to decode PEM block containing private key") ∧
    (parsePrivateKey ecEnv "key.pem").1 = .error (errors.New "not an RSA private key") :=
  ⟨((parsePrivateKey_spec okEnv "key.pem").1 _).2
      ⟨[45, 45, 45], ⟨"PRIVATE KEY", [], [48, 130]⟩, ⟨3233, 17, 2753⟩, rfl, rfl, rfl, rfl⟩,
    (parsePrivateKey_spec noPemEnv "key.pem").2.2.1 [45, 45, 45] rfl rfl,
    (parsePrivateKey_spec ecEnv "key.pem").2.2.2.2.1 [45, 45, 45]
      ⟨"PRIVATE KEY", [], [48, 130]⟩ (.ecdsa "P-256" 7) rfl rfl rfl (by intro k h; cases h)⟩

/-! ## C5: what is handed to the transport -/

/-- Whatever the outcome of the run, a call of the transport found in the trace
of `main` is the only one and has the arguments that the flags and the loaded
key determine. -/
theorem main_send_event_arguments (env : Env) (fl : Flags) (addr : String) (a : Option Auth)
    (sender : String) (rcpts : List String) (data : Bytes)
    (hcall : Event.sendMail addr a sender rcpts data ∈ main env fl) :
    ∃ pk clear,
      (parsePrivateKey env fl.dkimPrivateKeyPath).1 = .ok pk ∧
      env.WriteTo [MsgCall.SetHeader "From" [fl.from_], MsgCall.SetHeader "To" [fl.to_],
        MsgCall.SetHeader "Subject" [fl.subject], MsgCall.SetBody "text/plain" fl.message]
          = .ok clear ∧
      env.Sign clear { Domain := fl.dkimDomain, Selector := fl.dkimSelect, Signer := pk }
        = .ok data ∧
      addr = fl.toAddr ∧ a = none ∧ sender = fl.from_ ∧ rcpts = [fl.to_] ∧
      (main env fl).filter Event.isSend =
        [Event.sendMail fl.toAddr none fl.from_ [fl.to_] data] := by
  by_cases hf : flagsSet fl
  swap
  · exfalso
    have hor : fl.dkimSelect = "" ∨ fl.dkimDomain = "" ∨ fl.toAddr = "" ∨ fl.to_ = "" ∨
        fl.from_ = "" := by
      unfold flagsSet at hf
      by_contra hc
      simp only [not_or] at hc
      exact hf ⟨hc.1, hc.2.1, hc.2.2.1, hc.2.2.2.1, hc.2.2.2.2⟩
    obtain ⟨text, hm⟩ := main_of_empty_flag env fl hor
    rw [hm] at hcall
    simp at hcall
  rw [main_of_flagsSet env fl hf] at hcall ⊢
  cases hs : env.Stat fl.dkimPrivateKeyPath with
  | error e =>
    rw [hs] at hcall
    simp at hcall
  | ok fi =>
    rw [hs] at hcall
    by_cases hd : fi.IsDir = true
    · simp [hd] at hcall
    simp only [hd, Bool.false_eq_true, if_false, parsePrivateKey_trace] at hcall ⊢
    cases hk : (parsePrivateKey env fl.dkimPrivateKeyPath).1 with
    | error e =>
      rw [hk] at hcall
      simp at hcall
    | ok pk =>
      rw [hk] at hcall
      simp only [mainSend] at hcall ⊢
      cases h1 : env.WriteTo ((mailerOf fl pk).buildMessage fl.subject fl.message) with
      | error e =>
        rw [SendMail_of_write_error _ env _ _ e h1] at hcall
        simp at hcall
      | ok clear =>
        cases h2 : env.Sign clear (mailerOf fl pk).SignOpts with
        | error e =>
          rw [SendMail_of_sign_error _ env _ _ clear e h1 h2] at hcall
          simp at hcall
        | ok signed =>
          rw [SendMail_of_signed _ env _ _ clear signed h1 h2] at hcall ⊢
          have hmem : Event.sendMail addr a sender rcpts data =
              Event.sendMail (mailerOf fl pk).ToAddr none (mailerOf fl pk).From
                [(mailerOf fl pk).To] signed := by
            cases hr : env.smtpSendMail (mailerOf fl pk).ToAddr none (mailerOf fl pk).From
              [(mailerOf fl pk).To] signed <;> simpa [hr] using hcall
          injection hmem with ha hb hc hd2 he
          subst ha hb hc hd2 he
          refine ⟨pk, clear, rfl, h1, h2, rfl, rfl, rfl, rfl, ?_⟩
          generalize env.smtpSendMail (mailerOf fl pk).ToAddr none (mailerOf fl pk).From
            [(mailerOf fl pk).To] data = r
          cases r <;> simp [List.filter, Event.isSend, mailerOf]

/-- C5. In every successful run of `main` (the flag checks pass, the key path
is a file, `parsePrivateKey` returns the key `pk`, and `SendMail` returns nil)
serializing and signing succeeded, the transport accepted the message, and the
trace is: the stat call, the read of the key file, the serialization of the
message with headers From, To, Subject set to the `-from`, `-to`, `-subject`
values and the `-msg` value as `text/plain` body, the signing of those bytes
with Domain = `-signdomain`, Selector = `-signselect`, Signer = `pk`, one call
of the transport with the `-host` value as server address, the `-from` value as
sender, the one-element list of the `-to` value as recipients and the signed
bytes as data, and the success line. The transport is called exactly once. -/
theorem main_successful_run (env : Env) (fl : Flags) (fi : FileInfo) (pk : PrivateKey)
    (hf : flagsSet fl) (hs : env.Stat fl.dkimPrivateKeyPath = .ok fi) (hd : fi.IsDir = false)
    (hk : (parsePrivateKey env fl.dkimPrivateKeyPath).1 = .ok pk)
    (hnil : ((mailerOf fl pk).SendMail env fl.subject fl.message).1 = none) :
    ∃ clear signed,
      env.WriteTo [MsgCall.SetHeader "From" [fl.from_], MsgCall.SetHeader "To" [fl.to_],
        MsgCall.SetHeader "Subject" [fl.subject], MsgCall.SetBody "text/plain" fl.message]
          = .ok clear ∧
      env.Sign clear { Domain := fl.dkimDomain, Selector := fl.dkimSelect, Signer := pk }
        = .ok signed ∧
      env.smtpSendMail fl.toAddr none fl.from_ [fl.to_] signed = none ∧
      main env fl =
        [Event.stat fl.dkimPrivateKeyPath, Event.readFile fl.dkimPrivateKeyPath,
          Event.writeTo [MsgCall.SetHeader "From" [fl.from_], MsgCall.SetHeader "To" [fl.to_],
            MsgCall.SetHeader "Subject" [fl.subject], MsgCall.SetBody "text/plain" fl.message],
          Event.sign clear
            { Domain := fl.dkimDomain, Selector := fl.dkimSelect, Signer := pk },
          Event.sendMail fl.toAddr none fl.from_ [fl.to_] signed,
          Event.stdout "mail sent successfully\n"] ∧
      (main env fl).filter Event.isSend =
        [Event.sendMail fl.toAddr none fl.from_ [fl.to_] signed] ∧
      (main env fl).countP Event.isSend = 1 := by
  rw [main_of_key env fl fi pk hf hs hd hk]
  cases h1 : env.WriteTo ((mailerOf fl pk).buildMessage fl.subject fl.message) with
  | error e =>
    rw [SendMail_of_write_error _ env _ _ e h1] at hnil
    cases hnil
  | ok clear =>
    cases h2 : env.Sign clear (mailerOf fl pk).SignOpts with
    | error e =>
      rw [SendMail_of_sign_error _ env _ _ clear e h1 h2] at hnil
      cases hnil
    | ok signed =>
      have hsend := SendMail_of_signed _ env _ _ clear signed h1 h2
      rw [hsend] at hnil
      have h3 : env.smtpSendMail (mailerOf fl pk).ToAddr none (mailerOf fl pk).From
          [(mailerOf fl pk).To] signed = none := hnil
      have htrace : mainSend env fl pk =
          [Event.writeTo ((mailerOf fl pk).buildMessage fl.subject fl.message),
            Event.sign clear (mailerOf fl pk).SignOpts,
            Event.sendMail (mailerOf fl pk).ToAddr none (mailerOf fl pk).From
              [(mailerOf fl pk).To] signed,
            Event.stdout "mail sent successfully\n"] := by
        simp only [mainSend, hsend, h3]
        rfl
      rw [htrace]
      exact ⟨clear, signed, h1, h2, h3, rfl, rfl, rfl⟩

/-- The run of `main` in `okEnv` with `someFlags` is successful: its trace, with
the one delivery call. -/
theorem main_successful_run_witness :
    flagsSet someFlags ∧
    (parsePrivateKey okEnv someFlags.dkimPrivateKeyPath).1 = .ok (.rsa ⟨3233, 17, 2753⟩) ∧
    ∃ clear signed,
      okEnv.WriteTo [MsgCall.SetHeader "From" [someFlags.from_],
        MsgCall.SetHeader "To" [someFlags.to_], MsgCall.SetHeader "Subject" [someFlags.subject],
        MsgCall.SetBody "text/plain" someFlags.message] = .ok clear ∧
      okEnv.Sign clear
        { Domain := someFlags.dkimDomain, Selector := someFlags.dkimSelect,
          Signer := .rsa ⟨3233, 17, 2753⟩ } = .ok signed ∧
      okEnv.smtpSendMail someFlags.toAddr none someFlags.from_ [someFlags.to_] signed = none ∧
      main okEnv someFlags =
        [Event.stat someFlags.dkimPrivateKeyPath, Event.readFile someFlags.dkimPrivateKeyPath,
          Event.writeTo [MsgCall.SetHeader "From" [someFlags.from_],
            MsgCall.SetHeader "To" [someFlags.to_],
            MsgCall.SetHeader "Subject" [someFlags.subject],
            MsgCall.SetBody "text/plain" someFlags.message],
          Event.sign clear
            { Domain := someFlags.dkimDomain, Selector := someFlags.dkimSelect,
              Signer := .rsa ⟨3233, 17, 2753⟩ },
          Event.sendMail someFlags.toAddr none someFlags.from_ [someFlags.to_] signed,
          Event.stdout "mail sent successfully\n"] ∧
      (main okEnv someFlags).filter Event.isSend =
        [Event.sendMail someFlags.toAddr none someFlags.from_ [someFlags.to_] signed] ∧
      (main okEnv someFlags).countP Event.isSend = 1 :=
  ⟨by decide, rfl,
    main_successful_run okEnv someFlags ⟨false⟩ (.rsa ⟨3233, 17, 2753⟩) (by decide) rfl rfl
      rfl rfl⟩

/-! ## C7: a key path that cannot be used -/

/-- C7 as stated fails. The key file of `unreadableEnv` can be stat'ed, is no
directory and cannot be read: `main` prints the read error alone, and the text
does not begin with `-signkey: `. -/
theorem main_unreadable_key_counterexample :
    flagsSet someFlags ∧
    unreadableEnv.Stat someFlags.dkimPrivateKeyPath = .ok ⟨false⟩ ∧
    unreadableEnv.ReadFile someFlags.dkimPrivateKeyPath =
      .error ⟨"open key.pem: permission denied"⟩ ∧
    stdoutOf (main unreadableEnv someFlags) = "open key.pem: permission denied\n" ∧
    startsWith (stdoutOf (main unreadableEnv someFlags)) "-signkey: " = false :=
  ⟨by decide, rfl, rfl, by decide, by decide⟩

/-- C7, amended. With the mandatory flags set: when `os.Stat` fails with `e`,
the trace is the stat call and the text `-signkey: ` followed by `e`; when the
path is a directory, the trace is the stat call and the line
`-signkey: is a directory, expected a file`, so `parsePrivateKey` is not called;
when the path is a file that `os.ReadFile` cannot read, failing with `e`, the
trace is the stat call, the read call and the line `e`, without `-signkey: `.
In all three no call reaches the signer or the SMTP client. -/
theorem main_key_path_failures (env : Env) (fl : Flags) (hf : flagsSet fl) :
    (∀ e, env.Stat fl.dkimPrivateKeyPath = .error e →
      main env fl =
        [Event.stat fl.dkimPrivateKeyPath, Event.stdout ("-signkey: " ++ e.Error)] ∧
      signsOrSends (main env fl) = false) ∧
    (∀ fi, env.Stat fl.dkimPrivateKeyPath = .ok fi → fi.IsDir = true →
      main env fl =
        [Event.stat fl.dkimPrivateKeyPath,
          Event.stdout "-signkey: is a directory, expected a file\n"] ∧
      (main env fl).any Event.isReadFile = false ∧
      signsOrSends (main env fl) = false) ∧
    (∀ fi e, env.Stat fl.dkimPrivateKeyPath = .ok fi → fi.IsDir = false →
      env.ReadFile fl.dkimPrivateKeyPath = .error e →
      main env fl =
        [Event.stat fl.dkimPrivateKeyPath, Event.readFile fl.dkimPrivateKeyPath,
          Event.stdout (e.Error ++ "\n")] ∧
      signsOrSends (main env fl) = false) := by
  rw [main_of_flagsSet env fl hf]
  refine ⟨?_, ?_, ?_⟩
  · intro e hs
    rw [hs]
    exact ⟨rfl, rfl⟩
  · intro fi hs hd
    rw [hs]
    simp only [hd, if_true]
    exact ⟨trivial, rfl, rfl⟩
  · intro fi e hs hd hr
    rw [hs]
    simp only [hd, Bool.false_eq_true, if_false, parsePrivateKey_trace,
      parsePrivateKey_of_read_error env _ e hr]
    exact ⟨rfl, rfl⟩

/-- The three failures at concrete inputs: a path that does not exist, a
directory, a file that cannot be read. -/
theorem main_key_path_failures_witness :
    flagsSet someFlags ∧
    main { okEnv with Stat := fun _ => .error ⟨"stat key.pem: no such file or directory"⟩ }
        someFlags =
      [Event.stat "key.pem",
        Event.stdout ("-signkey: " ++ "stat key.pem: no such file or directory")] ∧
    main { okEnv with Stat := fun _ => .ok ⟨true⟩ } someFlags =
      [Event.stat "key.pem", Event.stdout "-signkey: is a directory, expected a file\n"] ∧
    main unreadableEnv someFlags =
      [Event.stat "key.pem", Event.readFile "key.pem",
        Event.stdout ("open key.pem: permission denied" ++ "\n")] :=
  ⟨by decide,
    ((main_key_path_failures _ someFlags (by decide)).1 _ rfl).1,
    ((main_key_path_failures _ someFlags (by decide)).2.1 ⟨true⟩ rfl rfl).1,
    ((main_key_path_failures unreadableEnv someFlags (by decide)).2.2 ⟨false⟩ _ rfl rfl rfl).1⟩

/-! ## C8: line breaks in header values -/

/-- C8 as stated fails. The subject holds a CR LF followed by a further header
line; serializing, signing and delivery succeed, `SendMail` returns nil, and the
signer and the transport were both called. -/
theorem SendMail_line_break_counterexample :
    hasLineBreak "hi\r\nBcc: eve@example.net" = true ∧
    someMailer.SendMail okEnv "hi\r\nBcc: eve@example.net" "hello" =
      (none,
        [Event.writeTo [MsgCall.SetHeader "From" ["alice@example.com"],
            MsgCall.SetHeader "To" ["bob@example.org"],
            MsgCall.SetHeader "Subject" ["hi\r\nBcc: eve@example.net"],
            MsgCall.SetBody "text/plain" "hello"],
          Event.sign [70, 114] someMailer.SignOpts,
          Event.sendMail "mx.example.org:25" none "alice@example.com" ["bob@example.org"]
            [68, 70, 114]]) :=
  ⟨by decide, by decide⟩

/-- C8, amended. For a sender, recipient or subject that holds a CR or an LF,
`Mailer.SendMail` hands the values as they are to the message builder and checks
nothing itself. When serializing the message fails with `e`, `SendMail` returns
`e` and the trace holds the serializer call alone: no signing, no delivery. When
serializing succeeds, the signer is called on the serialized bytes. -/
theorem SendMail_line_break_unchecked (m : Mailer) (env : Env) (subject message : String)
    (_h : hasLineBreak m.From = true ∨ hasLineBreak m.To = true ∨
      hasLineBreak subject = true) :
    m.buildMessage subject message =
      [MsgCall.SetHeader "From" [m.From], MsgCall.SetHeader "To" [m.To],
        MsgCall.SetHeader "Subject" [subject], MsgCall.SetBody "text/plain" message] ∧
    (∀ e, env.WriteTo (m.buildMessage subject message) = .error e →
      m.SendMail env subject message =
        (some e, [Event.writeTo (m.buildMessage subject message)]) ∧
      signsOrSends (m.SendMail env subject message).2 = false) ∧
    (∀ clear, env.WriteTo (m.buildMessage subject message) = .ok clear →
      Event.sign clear m.SignOpts ∈ (m.SendMail env subject message).2) := by
  refine ⟨rfl, ?_, ?_⟩
  · intro e h1
    rw [SendMail_of_write_error m env subject message e h1]
    exact ⟨rfl, rfl⟩
  · intro clear h1
    cases h2 : env.Sign clear m.SignOpts with
    | error e =>
      rw [SendMail_of_sign_error m env subject message clear e h1 h2]
      simp
    | ok signed =>
      rw [SendMail_of_signed m env subject message clear signed h1 h2]
      simp

/-- A subject with a line break: with a serializer that fails nothing is signed
or sent; with one that succeeds the signer is called. -/
theorem SendMail_line_break_unchecked_witness :
    hasLineBreak "hi\r\nBcc: eve@example.net" = true ∧
    someMailer.SendMail writeFailEnv "hi\r\nBcc: eve@example.net" "hello" =
      (some ⟨"gomail: cannot write"⟩,
        [Event.writeTo (someMailer.buildMessage "hi\r\nBcc: eve@example.net" "hello")]) ∧
    Event.sign [70, 114] someMailer.SignOpts ∈
      (someMailer.SendMail okEnv "hi\r\nBcc: eve@example.net" "hello").2 :=
  ⟨by decide,
    ((SendMail_line_break_unchecked someMailer writeFailEnv "hi\r\nBcc: eve@example.net"
      "hello" (Or.inr (Or.inr (by decide)))).2.1 _ rfl).1,
    (SendMail_line_break_unchecked someMailer okEnv "hi\r\nBcc: eve@example.net" "hello"
      (Or.inr (Or.inr (by decide)))).2.2 _ rfl⟩

/-! ## C10: relaxed canonicalization is idempotent -/

/-! ### Collapsing runs of whitespace -/

theorem collapseAux_length_le (b : Bool) (l : List Char) :
    (collapseAux b l).length ≤ l.length := by
  induction l generalizing b with
  | nil => simp [collapseAux]
  | cons c cs ih =>
    unfold collapseAux
    by_cases hc : isWSP c = true
    · cases b
      · simpa [hc] using ih true
      · simp only [hc, if_true]
        exact Nat.le_succ_of_le (ih true)
    · simpa [hc] using ih false

theorem collapseAux_idem (b : Bool) (l : List Char) :
    collapseAux b (collapseAux b l) = collapseAux b l := by
  induction l generalizing b with
  | nil => simp [collapseAux]
  | cons c cs ih =>
    by_cases hc : isWSP c = true
    · cases b
      · have hsp : isWSP ' ' = true := by decide
        simp [collapseAux, hc, hsp, ih true]
      · simp [collapseAux, hc, ih true]
    · simp [collapseAux, hc, ih false]

/-- A list that `collapseAux true` leaves alone is left alone by `collapseAux false`. -/
theorem collapseAux_false_of_true (l : List Char) (h : collapseAux true l = l) :
    collapseAux false l = l := by
  cases l with
  | nil => rfl
  | cons c cs =>
    by_cases hc : isWSP c = true
    · exfalso
      have hlen := collapseAux_length_le true cs
      simp only [collapseAux, hc, if_true] at h
      rw [h] at hlen
      simp at hlen
    · simp only [collapseAux, hc] at h ⊢
      exact h

/-- A beginning of a collapsed list is collapsed. -/
theorem collapseAux_fix_left (b : Bool) (l₁ l₂ : List Char)
    (h : collapseAux b (l₁ ++ l₂) = l₁ ++ l₂) : collapseAux b l₁ = l₁ := by
  induction l₁ generalizing b with
  | nil => rfl
  | cons c cs ih =>
    by_cases hc : isWSP c = true
    · cases b
      · simp only [List.cons_append, collapseAux, hc, if_true, Bool.false_eq_true, if_false,
          List.cons.injEq] at h ⊢
        exact ⟨h.1, ih true h.2⟩
      · exfalso
        have hlen := collapseAux_length_le true (cs ++ l₂)
        simp only [List.cons_append, collapseAux, hc, if_true] at h
        have hl := congrArg List.length h
        simp only [List.length_cons, List.length_append, List.append_eq] at hl hlen
        omega
    · simp only [List.cons_append, collapseAux, hc, Bool.false_eq_true, if_false,
        List.cons.injEq, true_and] at h ⊢
      exact ih false h

/-- An end of a collapsed list is collapsed. -/
theorem collapseAux_fix_right (b : Bool) (l₁ l₂ : List Char)
    (h : collapseAux b (l₁ ++ l₂) = l₁ ++ l₂) : collapseAux false l₂ = l₂ := by
  induction l₁ generalizing b with
  | nil =>
    cases b
    · exact h
    · exact collapseAux_false_of_true l₂ h
  | cons c cs ih =>
    by_cases hc : isWSP c = true
    · cases b
      · simp only [List.cons_append, collapseAux, hc, if_true, Bool.false_eq_true, if_false,
          List.cons.injEq] at h
        exact ih true h.2
      · exfalso
        have hlen := collapseAux_length_le true (cs ++ l₂)
        simp only [List.cons_append, collapseAux, hc, if_true] at h
        have hl := congrArg List.length h
        simp only [List.length_cons, List.length_append, List.append_eq] at hl hlen
        omega
    · simp only [List.cons_append, collapseAux, hc, Bool.false_eq_true, if_false,
        List.cons.injEq, true_and] at h
      exact ih false h

theorem trimRight_append (l : List Char) : ∃ t, trimRight l ++ t = l :=
  List.rdropWhile_prefix isWSP l

theorem trimRight_idem (l : List Char) : trimRight (trimRight l) = trimRight l :=
  List.rdropWhile_idempotent isWSP l

theorem trimLeft_append (l : List Char) : ∃ t, t ++ trimLeft l = l :=
  ⟨l.takeWhile isWSP, List.takeWhile_append_dropWhile isWSP l⟩

theorem trimRight_trimLeft (l : List Char) (h : trimRight l = l) :
    trimRight (trimLeft l) = trimLeft l := by
  unfold trimRight at h ⊢
  rw [List.rdropWhile_eq_self_iff] at h ⊢
  intro hne
  have hl : l ≠ [] := by
    intro h0
    apply hne
    simp [trimLeft, h0]
  have hlast : (trimLeft l).getLast hne = l.getLast hl := by
    have hsplit : l.takeWhile isWSP ++ trimLeft l = l :=
      List.takeWhile_append_dropWhile isWSP l
    have := List.getLast_append_right (l := l.takeWhile isWSP) hne
    simp only [hsplit] at this
    exact this.symm
  rw [hlast]
  exact h hl

theorem canonLine_idem (l : List Char) : canonLine (canonLine l) = canonLine l := by
  unfold canonLine collapseWSP
  obtain ⟨t, ht⟩ := trimRight_append (collapseAux false l)
  have hfix : collapseAux false (trimRight (collapseAux false l)) =
      trimRight (collapseAux false l) := by
    apply collapseAux_fix_left false _ t
    rw [ht, collapseAux_idem]
  rw [hfix]
  exact trimRight_idem _

theorem canonValue_idem (v : List Char) :
    trimLeft (trimRight (collapseWSP (trimLeft (trimRight (collapseWSP v))))) =
      trimLeft (trimRight (collapseWSP v)) := by
  unfold collapseWSP
  obtain ⟨t, ht⟩ := trimRight_append (collapseAux false v)
  obtain ⟨u, hu⟩ := trimLeft_append (trimRight (collapseAux false v))
  have hfix₁ : collapseAux false (trimRight (collapseAux false v)) =
      trimRight (collapseAux false v) := by
    apply collapseAux_fix_left false _ t
    rw [ht, collapseAux_idem]
  have hfix₂ : collapseAux false (trimLeft (trimRight (collapseAux false v))) =
      trimLeft (trimRight (collapseAux false v)) := by
    apply collapseAux_fix_right false u
    rw [hu, hfix₁]
  rw [hfix₂, trimRight_trimLeft _ (trimRight_idem _)]
  exact List.dropWhile_idempotent isWSP _

theorem toNat_ofNat_lower (n : Nat) (h1 : 97 ≤ n) (h2 : n ≤ 122) :
    (Char.ofNat n).toNat = n := by
  interval_cases n <;> rfl

theorem toLower_idem (c : Char) : c.toLower.toLower = c.toLower := by
  unfold Char.toLower
  by_cases h : c.toNat ≥ 65 ∧ c.toNat ≤ 90
  · have h3 := toNat_ofNat_lower (c.toNat + 32) (by omega) (by omega)
    simp only [h, and_self, if_true, h3]
    rw [if_neg]
    omega
  · simp only [h, if_false]

theorem lowercase_idem (l : List Char) : lowercase (lowercase l) = lowercase l := by
  simp [lowercase, toLower_idem]

/-! ### Lines -/

theorem splitLines_head (b l : List Char) (ls : List (List Char))
    (h : splitLines b = l :: ls) : ∀ y ∈ l.head?, y ∈ b.head? := by
  cases b with
  | nil => simp [splitLines] at h
  | cons c t =>
    cases t with
    | nil =>
      simp only [splitLines, List.cons.injEq] at h
      simp [← h.1]
    | cons d rest =>
      by_cases hcd : c = '\r' ∧ d = '\n'
      · simp only [splitLines, hcd, and_self, if_true, List.cons.injEq] at h
        simp [← h.1]
      · simp only [splitLines, hcd, if_false] at h
        cases hs : splitLines (d :: rest) with
        | nil =>
          simp only [hs, List.cons.injEq] at h
          simp [← h.1]
        | cons l' ls' =>
          simp only [hs, List.cons.injEq] at h
          simp [← h.1]

theorem splitLines_noCRLF (b : List Char) : ∀ l ∈ splitLines b, NoCRLF l := by
  induction b using splitLines.induct with
  | case1 => simp [splitLines]
  | case2 c => simp [splitLines, NoCRLF]
  | case3 c d rest hcd ih =>
    intro l hl
    simp only [splitLines, hcd, and_self, if_true, List.mem_cons] at hl
    rcases hl with rfl | hl
    · simp [NoCRLF]
    · exact ih l hl
  | case4 c d rest hcd hs ih =>
    intro l hl
    simp only [splitLines, hcd, if_false, hs, List.mem_singleton] at hl
    subst hl
    simp [NoCRLF]
  | case5 c d rest hcd l' ls hs ih =>
    intro l hl
    simp only [splitLines, hcd, if_false, hs, List.mem_cons] at hl
    rcases hl with rfl | hl
    · have hl' : NoCRLF l' := ih l' (by simp [hs])
      unfold NoCRLF at hl' ⊢
      rw [List.chain'_cons']
      refine ⟨?_, hl'⟩
      intro y hy
      have := splitLines_head (d :: rest) l' ls hs y hy
      simp only [List.head?_cons, Option.mem_def, Option.some.injEq] at this
      subst this
      intro hc
      exact hcd hc
    · exact ih l (by simp [hs, hl])

theorem splitLines_append (l rest : List Char) (h : NoCRLF l) :
    splitLines (l ++ '\r' :: '\n' :: rest) = l :: splitLines rest := by
  induction l with
  | nil => simp [splitLines]
  | cons c t ih =>
    unfold NoCRLF at h
    rw [List.chain'_cons'] at h
    have iht := ih h.2
    cases t with
    | nil =>
      have hne : ¬(c = '\r' ∧ '\r' = '\n') := by
        intro hc
        exact absurd hc.2 (by decide)
      simp only [List.nil_append] at iht
      simp [splitLines, iht]
    | cons d t' =>
      have hcd : ¬(c = '\r' ∧ d = '\n') := h.1 d (by simp)
      simp only [List.cons_append] at iht ⊢
      simp only [splitLines, hcd, if_false, iht]

theorem splitLines_joinLines (ls : List (List Char)) (h : ∀ l ∈ ls, NoCRLF l) :
    splitLines (joinLines ls) = ls := by
  induction ls with
  | nil => rfl
  | cons l t ih =>
    simp only [joinLines]
    rw [splitLines_append l _ (h l (by simp)), ih (fun x hx => h x (by simp [hx]))]

theorem collapseAux_head (l : List Char) :
    ∀ y ∈ (collapseAux false l).head?, y = ' ' ∨ y ∈ l.head? := by
  cases l with
  | nil => simp [collapseAux]
  | cons c cs =>
    by_cases hc : isWSP c = true
    · simp [collapseAux, hc]
    · simp [collapseAux, hc]

theorem collapseAux_noCRLF (b : Bool) (l : List Char) (h : NoCRLF l) :
    NoCRLF (collapseAux b l) := by
  induction l generalizing b with
  | nil => simpa [collapseAux] using h
  | cons c cs ih =>
    unfold NoCRLF at h
    rw [List.chain'_cons'] at h
    by_cases hc : isWSP c = true
    · cases b
      · simp only [collapseAux, hc, if_true, Bool.false_eq_true, if_false]
        unfold NoCRLF
        rw [List.chain'_cons']
        refine ⟨?_, ih true h.2⟩
        intro y _ hy
        exact absurd hy.1 (by decide)
      · simp only [collapseAux, hc, if_true]
        exact ih true h.2
    · simp only [collapseAux, hc, Bool.false_eq_true, if_false]
      unfold NoCRLF
      rw [List.chain'_cons']
      refine ⟨?_, ih false h.2⟩
      intro y hy
      rcases collapseAux_head cs y hy with rfl | hy'
      · intro hcy
        exact absurd hcy.2 (by decide)
      · exact h.1 y hy'

theorem canonLine_noCRLF (l : List Char) (h : NoCRLF l) : NoCRLF (canonLine l) := by
  unfold canonLine collapseWSP
  obtain ⟨t, ht⟩ := trimRight_append (collapseAux false l)
  have hc := collapseAux_noCRLF false l h
  rw [← ht] at hc
  unfold NoCRLF at hc ⊢
  exact (List.chain'_append.1 hc).1

theorem dropTrailingBlank_subset (ls : List (List Char)) :
    ∀ l ∈ dropTrailingBlank ls, l ∈ ls := by
  intro l hl
  obtain ⟨t, ht⟩ := List.rdropWhile_prefix List.isEmpty ls
  rw [← ht]
  exact List.mem_append_left t hl

theorem canonBody_lines_idem (b : List Char) :
    dropTrailingBlank ((splitLines (joinLines
        (dropTrailingBlank ((splitLines b).map canonLine)))).map canonLine) =
      dropTrailingBlank ((splitLines b).map canonLine) := by
  have hsub := dropTrailingBlank_subset ((splitLines b).map canonLine)
  have hno : ∀ l ∈ dropTrailingBlank ((splitLines b).map canonLine), NoCRLF l := by
    intro l hl
    obtain ⟨l₀, hl₀, rfl⟩ := List.mem_map.1 (hsub l hl)
    exact canonLine_noCRLF l₀ (splitLines_noCRLF b l₀ hl₀)
  have hfix : (dropTrailingBlank ((splitLines b).map canonLine)).map canonLine =
      dropTrailingBlank ((splitLines b).map canonLine) := by
    conv_rhs => rw [← List.map_id (dropTrailingBlank ((splitLines b).map canonLine))]
    apply List.map_congr_left
    intro l hl
    obtain ⟨l₀, -, rfl⟩ := List.mem_map.1 (hsub l hl)
    simpa using canonLine_idem l₀
  rw [splitLines_joinLines _ hno, hfix]
  exact List.rdropWhile_idempotent List.isEmpty _

/-- C10. With the canonicalizer as section 4.3 of the spec words it, relaxed
canonicalization is idempotent: for every header field (name, value),
canonicalizing the canonical field gives it back, and for every body,
canonicalizing the canonical body gives it back. -/
theorem canon_relaxed_idempotent (n v b : String) :
    canonHeader (canonHeader (n, v) .relaxed) .relaxed = canonHeader (n, v) .relaxed ∧
    renderHeader (canonHeader (canonHeader (n, v) .relaxed) .relaxed) =
      renderHeader (canonHeader (n, v) .relaxed) ∧
    canonBody (canonBody b .relaxed) .relaxed = canonBody b .relaxed := by
  have hh : canonHeader (canonHeader (n, v) .relaxed) .relaxed =
      canonHeader (n, v) .relaxed := by
    simp only [canonHeader, lowercase_idem, canonValue_idem]
  refine ⟨hh, ?_, ?_⟩
  · rw [hh]
  · simp only [canonBody, canonBody_lines_idem]

/-- The model on small inputs: the relaxed header and body of texts with runs
of whitespace, blank lines at the end and a missing last CRLF, and the same texts
canonicalized a second time. -/
theorem canon_relaxed_examples :
    renderHeader (canonHeader ("SubJect", "  a \t b  ") .relaxed) = "subject:a b\r\n" ∧
    canonBody " a \t b  \r\n\r\n \r\n" .relaxed = " a b\r\n" ∧
    canonBody " a b\r\n" .relaxed = " a b\r\n" ∧
    canonBody "x\r\n\r\ny" .relaxed = "x\r\n\r\ny\r\n" ∧
    canonBody "\r\n\r\n" .relaxed = "" ∧
    canonBody "" .relaxed = "" := by
  decide

end Sendmail
